import Mathlib

/-! # Verification of the super-simple-social backend (`server.js`)

A shallow embedding of the cadence scheduler, the weighted selector, the
draft composer and the post lifecycle of `server.js`.

Modelling conventions:
* Timestamps are natural numbers counting milliseconds since the Unix epoch
  in a fixed-offset (DST-free) calendar.  Day 0 (1970-01-01) was a Thursday,
  which is weekday number 4 in the `Monday = 1 .. Sunday = 7` convention the
  code uses (`((d.getDay()+6)%7)+1`).
* Statuses are the exact strings the code stores (`"draft"`, `"approved"`,
  `"published"`, `"failed"`); the PATCH route accepts arbitrary strings, so
  no enumeration is imposed.
* External collaborators are explicit arguments: the content-generator call
  outcome (`Except String GenContent`, error = the awaited call threw), the
  per-platform publisher (`String → Except String PubResult`, error = the
  publish call threw; the code wires in the always-ok `publishToLinkedIn`
  stub), the `uid()` stream, the random draws of `Math.random()*total`, and
  the current clock instant.
* The SQLite tables are a `Store` record of lists; row updates keyed on the
  `TEXT PRIMARY KEY` id columns are modelled as pointwise list maps.
-/

namespace SSSP

/-- Milliseconds in one calendar day. -/
def msPerDay : ℕ := 86400000

/-- Weekday of an epoch day number in the code's convention
`((d.getDay()+6)%7)+1`, i.e. Monday = 1 .. Sunday = 7.  Day 0
(1970-01-01) is a Thursday, so the offset 3 makes `weekdayOfDay 0 = 4`. -/
def weekdayOfDay (day : ℕ) : ℕ := (day + 3) % 7 + 1

/-- Brand cadence as produced by `rowToBrand` (server.js line 70): the JSON
array `cadence_weekdays` and the integer columns `cadence_hour`,
`cadence_minute`. -/
structure Cadence where
  weekdays : List ℕ
  hour : ℕ
  minute : ℕ
  deriving DecidableEq

/-- The loop body of `nextScheduleTimes` (server.js lines 78-86).  `i` is the
day offset from today, `fuel` the remaining offsets of the 30-day window and
`rem` the number of timestamps still wanted; the loop guard is
`i < 30 && times.length < count`.  For a qualifying weekday the candidate is
that day at `cadence.hour:cadence.minute:00.000` (`d.setHours(h, m, 0, 0)`),
kept only when strictly after `now` (`if (d > now)`).  The `?? 10` / `?? 0`
fallbacks of the source apply to absent fields, which the non-optional row
columns never produce, so they collapse here. -/
def nextTimesGo (c : Cadence) (now : ℕ) : ℕ → ℕ → ℕ → List ℕ
  | _, 0, _ => []
  | _, _, 0 => []
  | i, fuel + 1, rem + 1 =>
    let day := now / msPerDay + i
    if weekdayOfDay day ∈ c.weekdays then
      let t := day * msPerDay + c.hour * 3600000 + c.minute * 60000
      if now < t then t :: nextTimesGo c now (i + 1) fuel rem
      else nextTimesGo c now (i + 1) fuel (rem + 1)
    else nextTimesGo c now (i + 1) fuel (rem + 1)

/-- `nextScheduleTimes(cadence, count)` (server.js lines 75-88), with the
current instant `now` (in ms) passed explicitly instead of `new Date()`. -/
def nextScheduleTimes (c : Cadence) (count : ℕ) (now : ℕ) : List ℕ :=
  nextTimesGo c now 0 30 count

/-- A weighted pillar/format item.  An absent JS `weight` field
(`it.weight || 0`) is represented as weight 0. -/
structure WeightedItem where
  key : String
  label : String
  weight : ℚ
  deriving DecidableEq

/-- The total of `pickWeighted` (server.js line 91):
`items.reduce((a,b)=>a+(b.weight||0),0) || 1` — the `|| 1` fires exactly when
the sum is 0. -/
def pickTotal (items : List WeightedItem) : ℚ :=
  let s := items.foldl (fun a b => a + b.weight) 0
  if s = 0 then 1 else s

/-- The walk of `pickWeighted` (server.js line 93):
`for(const it of items){ n -= (it.weight||0); if(n<=0) return it }`. -/
def pickGo : List WeightedItem → ℚ → Option WeightedItem
  | [], _ => none
  | it :: rest, n =>
    if n - it.weight ≤ 0 then some it else pickGo rest (n - it.weight)

/-- `pickWeighted(items)` (server.js lines 90-95) with the random draw
`Math.random() * total` passed explicitly.  When the walk falls through, the
code returns `items[0]`, which is `undefined` (here `none`) on an empty
list. -/
def pickWeighted (items : List WeightedItem) (draw : ℚ) : Option WeightedItem :=
  match pickGo items draw with
  | some it => some it
  | none => items.head?

/-- The `postMeta` JSON blob of a post row (`{ pillarKey, pillarLabel,
formatKey }`, server.js line 183); each field may be absent. -/
structure PostMeta where
  pillarKey : Option String
  pillarLabel : Option String
  formatKey : Option String
  deriving DecidableEq

/-- A row of the `posts` table with its JSON columns parsed, as the routes
use it. -/
structure Post where
  id : String
  brand : String
  text : String
  status : String
  platformTargets : List String
  createdAt : ℕ
  scheduledAt : Option ℕ
  publishedAt : Option ℕ
  postMeta : PostMeta
  deriving DecidableEq

/-- A row of the `brands` table after `rowToBrand` (server.js lines 65-73).
The free-form `settings` blob only feeds the generation prompt and the
pillar/format weight lists, which are modelled as explicit inputs below, so
it is kept abstractly as its serialized JSON text. -/
structure Brand where
  id : String
  name : String
  voice : String
  pillars : List String
  cadence : Cadence
  platforms : List String
  settings : String
  deriving DecidableEq

/-- The SQLite database: the `brands` and `posts` tables. -/
structure Store where
  brands : List Brand
  posts : List Post
  deriving DecidableEq

/-- `.replace(/—/g,'-')` (server.js lines 178 and 285): replace every em dash
character with a plain hyphen. -/
def emdashSanitize (s : String) : String :=
  ⟨s.data.map (fun c => if c = '—' then '-' else c)⟩

/-- One item of the generator's `posts` array
(`{"text":"...","pillarKey":"...","pillarLabel":"...","formatKey":"..."}`);
every field may be absent. -/
structure GenItem where
  text : Option String
  pillarKey : Option String
  pillarLabel : Option String
  formatKey : Option String
  deriving DecidableEq

/-- Shape of `res.choices[0].message.content` as the code probes it:
either `JSON.parse` throws (`malformed`), or it yields an object whose
`posts` field is absent (`object none`) or is an array
(`object (some items)`). -/
inductive GenContent where
  | malformed
  | object (posts : Option (List GenItem))
  deriving DecidableEq

/-- The `try { ... obj.posts || [] } catch { items = [] }` block of
`generatePostsForBrand` (server.js lines 163-169).  An empty `posts` array is
truthy in JS, so `object (some its)` always yields `its`. -/
def parsedItems : GenContent → List GenItem
  | .malformed => []
  | .object none => []
  | .object (some its) => its

/-- Failures `generatePostsForBrand` can propagate: the explicit
`throw new Error('Brand not found')` (line 99) and a rejection of the awaited
chat-completions call (line 157). -/
inductive GenError where
  | brandNotFound
  | generationFailed (msg : String)
  deriving DecidableEq

/-- One `(pillar, format)` selection pair, the outcome of the two
`pickWeighted` draws per requested post (server.js lines 124-127). -/
structure Selection where
  pillar : WeightedItem
  format : WeightedItem
  deriving DecidableEq

/-- The body of the `items.map((it, i) => ...)` at server.js lines 174-187:
one draft record built from generator item `it` at index `i`.  The text is
the em-dash-sanitized `(it.text||'')`; status is `'draft'`;
`platformTargets` is `brand.platforms || ['linkedin']`, and since
`rowToBrand` always yields an array (even `[]` is truthy in JS) the fallback
never fires and the field is `brand.platforms`; `scheduledAt` is
`times[i]?.toISOString() || null`; the metadata fields fall back to the
corresponding random selection pair (`selections[i]?...`). -/
def mkDraft (brand : Brand) (selections : List Selection) (ids : ℕ → String)
    (now : ℕ) (times : List ℕ) (i : ℕ) (it : GenItem) : Post :=
  { id := ids i
    brand := brand.id
    text := emdashSanitize (it.text.getD "")
    status := "draft"
    platformTargets := brand.platforms
    createdAt := now
    scheduledAt := times.get? i
    publishedAt := none
    postMeta :=
      { pillarKey := it.pillarKey <|> ((selections.get? i).map (fun s => s.pillar.key))
        pillarLabel := it.pillarLabel <|> ((selections.get? i).map (fun s => s.pillar.label))
        formatKey := it.formatKey <|> ((selections.get? i).map (fun s => s.format.key)) } }

/-- The indexed `items.map` of server.js lines 174-187, which also performs
one `insert.run` per item; the inserted rows are exactly the returned
records. -/
def buildDrafts (brand : Brand) (selections : List Selection) (ids : ℕ → String)
    (now : ℕ) (times : List ℕ) : ℕ → List GenItem → List Post
  | _, [] => []
  | i, it :: rest =>
    mkDraft brand selections ids now times i it ::
      buildDrafts brand selections ids now times (i + 1) rest

/-- `generatePostsForBrand(brandId, count)` (server.js lines 97-190) with the
external pieces explicit: `genResult` is the outcome of the awaited
chat-completions call (`Except.error` = the call threw before any insert ran),
`selections` the outcomes of the `count` pairs of weighted random picks
(they only feed the prompt and the metadata fallbacks), `ids` the `uid()`
stream and `now` the clock.  The `count` argument itself only shapes the
prompt and `selections`, so it is subsumed by `selections`; the schedule
times use `Math.max(1, items.length)` (line 171).  Returns the store after
the inserts together with the created drafts, or the propagated error with
the store untouched. -/
def generatePostsForBrand (store : Store) (brandId : String)
    (genResult : Except String GenContent) (selections : List Selection)
    (ids : ℕ → String) (now : ℕ) : Store × Except GenError (List Post) :=
  match store.brands.find? (fun b => b.id = brandId) with
  | none => (store, .error .brandNotFound)
  | some brand =>
    match genResult with
    | .error e => (store, .error (.generationFailed e))
    | .ok content =>
      let items := parsedItems content
      let times := nextScheduleTimes brand.cadence (max 1 items.length) now
      let created := buildDrafts brand selections ids now times 0 items
      ({ store with posts := store.posts ++ created }, .ok created)

/-- The value a resolved per-platform publish call returns:
`{ ok: bool, url: string }`. -/
structure PubResult where
  ok : Bool
  url : String
  deriving DecidableEq

/-- The `publishToLinkedIn` stub (server.js lines 192-195): always resolves
with `{ ok: true, url: 'https://www.linkedin.com/feed/update/mock' }` and
never throws. -/
def publishToLinkedIn : Except String PubResult :=
  .ok { ok := true, url := "https://www.linkedin.com/feed/update/mock" }

/-- `publishPost(post)` (server.js lines 197-204) over an abstract
per-platform publisher `pub` (the spec's Publisher collaborator; the code
wires in the stub, i.e. `fun _ => publishToLinkedIn`).  Only targets equal to
`'linkedin'` are contacted (`if(platform==='linkedin')`); any other target is
skipped and contributes no result.  A rejected call aborts the loop and
propagates (`await` inside the `for`). -/
def publishPost (pub : String → Except String PubResult) :
    List String → Except String (List PubResult)
  | [] => .ok []
  | platform :: rest =>
    if platform = "linkedin" then
      match pub platform with
      | .error e => .error e
      | .ok r =>
        match publishPost pub rest with
        | .error e => .error e
        | .ok rs => .ok (r :: rs)
    else publishPost pub rest

/-- `POST /posts/:id/approve` (server.js lines 296-301).  `none` models the
404 on a missing id; otherwise `UPDATE posts SET status='approved' WHERE
id=?` touches every row with that id and nothing else. -/
def approvePost (posts : List Post) (id : String) : Option (List Post) :=
  match posts.find? (fun p => p.id = id) with
  | none => none
  | some _ =>
    some (posts.map (fun q => if q.id = id then { q with status := "approved" } else q))

/-- `POST /posts/:id/publish` (server.js lines 303-315).  `none` models the
404.  When `publishPost` resolves, the row is set to `published` with
`publishedAt = iso()` and the results are returned; the `ok` fields of the
results are never inspected.  When it throws, the row is set to `failed`
(no `publishedAt` change) and the error is surfaced. -/
def publishEndpoint (pub : String → Except String PubResult) (posts : List Post)
    (id : String) (now : ℕ) : Option (List Post × Except String (List PubResult)) :=
  match posts.find? (fun p => p.id = id) with
  | none => none
  | some p =>
    match publishPost pub p.platformTargets with
    | .ok results =>
      some
        (posts.map (fun q =>
          if q.id = id then { q with status := "published", publishedAt := some now }
          else q),
         .ok results)
    | .error e =>
      some
        (posts.map (fun q => if q.id = id then { q with status := "failed" } else q),
         .error e)

/-- Request body of `PATCH /posts/:id` (server.js lines 282-294).  `none`
models an absent (or `null`, since `??` treats both alike) field. -/
structure PostPatch where
  text : Option String
  status : Option String
  scheduledAt : Option ℕ
  platformTargets : Option (List String)
  postMeta : Option PostMeta
  deriving DecidableEq

/-- `PATCH /posts/:id` (server.js lines 282-294).  `none` models the 404.
The stored text is `(req.body.text ?? p.text).replace(/—/g,'-')` — sanitized
whether it comes from the request or is carried over.  Returns the updated
table and the `out` object the route responds with. -/
def patchPost (posts : List Post) (id : String) (patch : PostPatch) :
    Option (List Post × Post) :=
  match posts.find? (fun p => p.id = id) with
  | none => none
  | some p =>
    let text := emdashSanitize (patch.text.getD p.text)
    let status := patch.status.getD p.status
    let scheduledAt := patch.scheduledAt <|> p.scheduledAt
    let platformTargets := patch.platformTargets.getD p.platformTargets
    let postMeta := patch.postMeta.getD p.postMeta
    some
      (posts.map (fun q =>
        if q.id = id then
          { q with text := text, status := status, scheduledAt := scheduledAt,
                   platformTargets := platformTargets, postMeta := postMeta }
        else q),
       { p with text := text, status := status, scheduledAt := scheduledAt,
                platformTargets := platformTargets, postMeta := postMeta })

/-- The per-minute cron sweep (server.js lines 318-334).  The query selects
rows with `status='approved' AND scheduledAt IS NOT NULL`; a selected row
whose `scheduledAt <= now` gets a publish attempt: resolution sets
`published` and `publishedAt`, a thrown call sets `failed`.  Every other row
is untouched, and each post has its own `try/catch`, so one failure does not
stop the sweep. -/
def cronSweep (pub : String → Except String PubResult) (posts : List Post)
    (now : ℕ) : List Post :=
  posts.map (fun p =>
    match p.scheduledAt with
    | none => p
    | some t =>
      if p.status = "approved" ∧ t ≤ now then
        match publishPost pub p.platformTargets with
        | .ok _ => { p with status := "published", publishedAt := some now }
        | .error _ => { p with status := "failed" }
      else p)

/-- A field of a JSON request body as the JS type checks see it: absent
(`undefined`), present with the wrong type, or present with a value of the
expected type. -/
inductive ReqField (α : Type) where
  | missing
  | malformed
  | val (a : α)
  deriving DecidableEq

/-- The `cadence` object of a `POST /brands` body.  A wholly absent cadence
(`cadence?.x` all `undefined`) is represented by all fields `missing`. -/
structure CadenceReq where
  weekdays : ReqField (List ℕ)
  hour : ReqField ℕ
  minute : ReqField ℕ
  deriving DecidableEq

/-- Request body of `POST /brands` (server.js lines 214-232).  `id`/`name`
are kept as strings with `""` standing for the falsy values the
`if(!id || !name)` guard rejects.  `settings` is the raw blob
(`.val` = a value passing `typeof settings === 'object'`). -/
structure BrandCreateReq where
  id : String
  name : String
  voice : Option String
  pillars : ReqField (List String)
  cadence : CadenceReq
  platforms : ReqField (List String)
  settings : ReqField String
  deriving DecidableEq

/-- Outcome of `POST /brands`: a 400 response or a successful insert. -/
inductive CreateOutcome where
  | badRequest (msg : String)
  | created
  deriving DecidableEq

/-- `POST /brands` (server.js lines 214-232).  Each cadence field is
type-checked (`Array.isArray`, `Number.isInteger`) and replaced by the
default (`[2,5]` / `10` / `0`) when missing or malformed; values of the
right type are stored exactly as given. -/
def brandCreate (store : Store) (req : BrandCreateReq) : Store × CreateOutcome :=
  if req.id = "" ∨ req.name = "" then (store, .badRequest "id and name required")
  else if store.brands.any (fun b => b.id = req.id) then
    (store, .badRequest "brand id exists")
  else
    let p := match req.pillars with | .val l => l | _ => []
    let w := match req.cadence.weekdays with | .val l => l | _ => [2, 5]
    let h := match req.cadence.hour with | .val n => n | _ => 10
    let m := match req.cadence.minute with | .val n => n | _ => 0
    let pl := match req.platforms with | .val l => l | _ => ["linkedin"]
    let st := match req.settings with | .val s => s | _ => "\x7b\x7d"
    ({ store with
        brands := store.brands ++
          [{ id := req.id, name := req.name, voice := req.voice.getD "",
             pillars := p, cadence := { weekdays := w, hour := h, minute := m },
             platforms := pl, settings := st }] },
     .created)

/-- The JSON value held by the `cadence_weekdays` column of a brand row:
either a JSON array of numbers, or any other JSON value, kept as its
serialized text.  The second case arises because `PATCH /brands/:id`
(server.js line 241) stores `JSON.stringify(c?.weekdays ?? current)` with no
`Array.isArray` check. -/
inductive Weekdays where
  | arr (l : List ℕ)
  | other (raw : String)
  deriving DecidableEq

/-- A raw row of the `brands` table as the PATCH route reads and writes it.
A parsed `Brand` corresponds to a row whose `cadence_weekdays` column holds
`Weekdays.arr`; the `other` case is a column the unchecked PATCH has filled
with a non-array value. -/
structure BrandRow where
  id : String
  name : String
  voice : String
  pillars : List String
  cadence_weekdays : Weekdays
  cadence_hour : ℕ
  cadence_minute : ℕ
  platforms : List String
  settings : String
  deriving DecidableEq

/-- The `cadence` object of a `PATCH /brands/:id` body.  For `weekdays` the
route applies `c?.weekdays ?? current` with no type check: `none` models an
absent (or `null`) field, which keeps the current column value, while
`some v` is any present JSON value — array or not — which is stored exactly
as given.  `hour`/`minute` go through `Number.isInteger`. -/
structure CadencePatch where
  weekdays : Option Weekdays
  hour : ReqField ℕ
  minute : ReqField ℕ
  deriving DecidableEq

/-- Request body of `PATCH /brands/:id` (server.js lines 234-251); `none` =
absent (or `null`) field, which keeps the current value. -/
structure BrandPatchReq where
  voice : Option String
  pillars : Option (List String)
  cadence : Option CadencePatch
  platforms : Option (List String)
  settings : Option String
  deriving DecidableEq

/-- `PATCH /brands/:id` (server.js lines 234-251), at the row level since its
writes can leave the `cadence_weekdays` column malformed.  `none` models the
404.  `const c = req.body.cadence ?? current.cadence`: with an absent request
cadence every cadence field keeps the current column value; with a present
one, `JSON.stringify(c?.weekdays ?? current.cadence.weekdays)` stores a
present weekday value exactly as given — there is no `Array.isArray` check
here, unlike on create — and the `Number.isInteger` guards on hour/minute
fall back to the current values rather than the defaults.  Returns the
updated table and the re-read row the route responds with. -/
def brandPatch (rows : List BrandRow) (id : String) (req : BrandPatchReq) :
    Option (List BrandRow × BrandRow) :=
  match rows.find? (fun r => r.id = id) with
  | none => none
  | some b =>
    let w := match req.cadence with
      | some cp => match cp.weekdays with
        | some v => v
        | none => b.cadence_weekdays
      | none => b.cadence_weekdays
    let h := match req.cadence with
      | some cp => match cp.hour with | .val n => n | _ => b.cadence_hour
      | none => b.cadence_hour
    let m := match req.cadence with
      | some cp => match cp.minute with | .val n => n | _ => b.cadence_minute
      | none => b.cadence_minute
    let b' : BrandRow :=
      { b with voice := req.voice.getD b.voice,
               pillars := req.pillars.getD b.pillars,
               cadence_weekdays := w, cadence_hour := h, cadence_minute := m,
               platforms := req.platforms.getD b.platforms,
               settings := req.settings.getD b.settings }
    some (rows.map (fun x => if x.id = id then b' else x), b')

/-- The cadence invariant of the spec's data model: weekdays ⊆ {1..7},
hour ∈ [0,23], minute ∈ [0,59] (the lower bounds are automatic over ℕ). -/
def cadenceWellFormed (c : Cadence) : Prop :=
  (∀ d ∈ c.weekdays, 1 ≤ d ∧ d ≤ 7) ∧ c.hour ≤ 23 ∧ c.minute ≤ 59

instance (c : Cadence) : Decidable (cadenceWellFormed c) := by
  unfold cadenceWellFormed; infer_instance

/-- The spec's cadence invariant at the row level: the weekday column must
hold an array whose entries lie in {1..7} (a non-array column has no weekday
set at all, so it violates the invariant), and hour/minute must be in range.
For a row with `Weekdays.arr l` this is exactly
`cadenceWellFormed ⟨l, hour, minute⟩`. -/
def BrandRow.wellFormed (r : BrandRow) : Prop :=
  (match r.cadence_weekdays with
    | Weekdays.arr l => ∀ d ∈ l, 1 ≤ d ∧ d ≤ 7
    | Weekdays.other _ => False) ∧
  r.cadence_hour ≤ 23 ∧ r.cadence_minute ≤ 59

/-! ## Concrete instances used to exercise the definitions -/

/-- A brand with the default cadence `{weekdays:[2,5], hour:10, minute:0}`. -/
def demoBrand : Brand :=
  { id := "b1", name := "Demo", voice := "", pillars := [],
    cadence := { weekdays := [2, 5], hour := 10, minute := 0 },
    platforms := ["linkedin"], settings := "\x7b\x7d" }

/-- A store holding just `demoBrand`. -/
def demoStore : Store := { brands := [demoBrand], posts := [] }

/-- An approved post targeting linkedin. -/
def approvedPost : Post :=
  { id := "p1", brand := "b1", text := "hello", status := "approved",
    platformTargets := ["linkedin"], createdAt := 0, scheduledAt := none,
    publishedAt := none, postMeta := { pillarKey := none, pillarLabel := none, formatKey := none } }

/-- A draft post targeting linkedin. -/
def draftPost : Post :=
  { id := "p2", brand := "b1", text := "hi", status := "draft",
    platformTargets := ["linkedin"], createdAt := 0, scheduledAt := none,
    publishedAt := none, postMeta := { pillarKey := none, pillarLabel := none, formatKey := none } }

/-- An already published post. -/
def publishedPost : Post :=
  { id := "p3", brand := "b1", text := "done", status := "published",
    platformTargets := ["linkedin"], createdAt := 0, scheduledAt := none,
    publishedAt := some 1, postMeta := { pillarKey := none, pillarLabel := none, formatKey := none } }

/-- A publisher whose calls resolve but report `ok = false`. -/
def failingOkPub : String → Except String PubResult :=
  fun _ => .ok { ok := false, url := "u" }

/-- The publisher the code actually wires in: the always-ok stub. -/
def stubPub : String → Except String PubResult :=
  fun _ => publishToLinkedIn

/-- A weighted list whose unique positive-weight item is preceded by a
zero-weight item. -/
def zeroFirstItems : List WeightedItem :=
  [{ key := "a", label := "A", weight := 0 }, { key := "b", label := "B", weight := 1 }]

/-- A create request whose cadence fields are integers/arrays but out of
range: weekday 9, hour 99. -/
def outOfRangeCreateReq : BrandCreateReq :=
  { id := "bx", name := "n", voice := none, pillars := .missing,
    cadence := { weekdays := .val [9], hour := .val 99, minute := .val 0 },
    platforms := .missing, settings := .missing }

/-- A create request whose well-typed cadence fields are all within range. -/
def goodCreateReq : BrandCreateReq :=
  { id := "b2", name := "n2", voice := none, pillars := .missing,
    cadence := { weekdays := .val [1, 7], hour := .val 23, minute := .val 59 },
    platforms := .missing, settings := .missing }

/-- A patch request with an in-range weekday array, an in-range hour and a
missing minute. -/
def goodPatchReq : BrandPatchReq :=
  { voice := none, pillars := none,
    cadence := some { weekdays := some (.arr [3]), hour := .val 8, minute := .missing },
    platforms := none, settings := none }

/-- The row corresponding to `demoBrand`. -/
def demoRow : BrandRow :=
  { id := "b1", name := "Demo", voice := "", pillars := [],
    cadence_weekdays := .arr [2, 5], cadence_hour := 10, cadence_minute := 0,
    platforms := ["linkedin"], settings := "\x7b\x7d" }

/-- A patch request supplying a present but non-array weekdays value (the
JSON number `5`), which the PATCH route stores as given. -/
def malformedWeekdaysPatch : BrandPatchReq :=
  { voice := none, pillars := none,
    cadence := some { weekdays := some (.other "5"), hour := .missing, minute := .missing },
    platforms := none, settings := none }

/-! ## Helper lemmas -/

/-- Sanitized text never contains an em dash. -/
lemma emdashSanitize_no_emdash (s : String) : '—' ∉ (emdashSanitize s).data := by
  intro hmem
  rcases List.mem_map.mp hmem with ⟨c, -, hc⟩
  by_cases h : c = '—'
  · rw [if_pos h] at hc
    exact absurd hc (by decide)
  · rw [if_neg h] at hc
    exact h hc

/-- The scheduler loop never collects more than `rem` timestamps. -/
lemma nextTimesGo_length (c : Cadence) (now : ℕ) :
    ∀ fuel i rem, (nextTimesGo c now i fuel rem).length ≤ rem := by
  intro fuel
  induction fuel with
  | zero => intro i rem; simp [nextTimesGo]
  | succ f ih =>
    intro i rem
    cases rem with
    | zero => simp [nextTimesGo]
    | succ r =>
      simp only [nextTimesGo]
      by_cases hw : weekdayOfDay (now / msPerDay + i) ∈ c.weekdays
      · rw [if_pos hw]
        by_cases hlt :
            now < (now / msPerDay + i) * msPerDay + c.hour * 3600000 + c.minute * 60000
        · rw [if_pos hlt]
          simpa using Nat.succ_le_succ (ih (i + 1) r)
        · rw [if_neg hlt]
          exact ih (i + 1) (r + 1)
      · rw [if_neg hw]
        exact ih (i + 1) (r + 1)

/-- Every timestamp the scheduler loop collects is strictly after `now`,
falls on a configured weekday and has exactly the cadence time of day —
provided the cadence hour and minute are in range, so that setting them does
not roll the date over. -/
lemma nextTimesGo_mem (c : Cadence) (now : ℕ) (hh : c.hour ≤ 23) (hm : c.minute ≤ 59) :
    ∀ fuel i rem t, t ∈ nextTimesGo c now i fuel rem →
      now < t ∧ weekdayOfDay (t / msPerDay) ∈ c.weekdays ∧
        t % msPerDay = c.hour * 3600000 + c.minute * 60000 := by
  intro fuel
  induction fuel with
  | zero => intro i rem t ht; simp [nextTimesGo] at ht
  | succ f ih =>
    intro i rem t ht
    cases rem with
    | zero => simp [nextTimesGo] at ht
    | succ r =>
      simp only [nextTimesGo] at ht
      by_cases hw : weekdayOfDay (now / msPerDay + i) ∈ c.weekdays
      · rw [if_pos hw] at ht
        by_cases hlt :
            now < (now / msPerDay + i) * msPerDay + c.hour * 3600000 + c.minute * 60000
        · rw [if_pos hlt] at ht
          rcases List.mem_cons.mp ht with rfl | hrest
          · refine ⟨hlt, ?_, ?_⟩
            · have hdiv :
                  ((now / msPerDay + i) * msPerDay + c.hour * 3600000 + c.minute * 60000) /
                      msPerDay = now / msPerDay + i := by
                simp only [msPerDay] at *
                omega
              rw [hdiv]
              exact hw
            · simp only [msPerDay] at *
              omega
          · exact ih (i + 1) r t hrest
        · rw [if_neg hlt] at ht
          exact ih (i + 1) (r + 1) t ht
      · rw [if_neg hw] at ht
        exact ih (i + 1) (r + 1) t ht

/-- `find?` succeeds when some list member satisfies the predicate. -/
lemma exists_find?_of_mem {α : Type} (pr : α → Bool) {l : List α} {x : α}
    (hx : x ∈ l) (hpx : pr x = true) : ∃ y, l.find? pr = some y := by
  have hs : (l.find? pr).isSome = true := List.find?_isSome.mpr ⟨x, hx, hpx⟩
  rcases Option.isSome_iff_exists.mp hs with ⟨y, hy⟩
  exact ⟨y, hy⟩

/-- Folding the weight sum over items of weight 0 leaves the accumulator. -/
lemma foldl_weight_zeros {l : List WeightedItem} (h : ∀ x ∈ l, x.weight = 0) :
    ∀ s : ℚ, l.foldl (fun a b => a + b.weight) s = s := by
  induction l with
  | nil => intro s; rfl
  | cons x xs ih =>
    intro s
    rw [List.foldl_cons, h x (List.mem_cons_self x xs), add_zero]
    exact ih (fun y hy => h y (List.mem_cons_of_mem x hy)) s

/-- With a single positive-weight item among zeros, the total of
`pickWeighted` is that item's weight. -/
lemma pickTotal_unique_positive (pre post : List WeightedItem) (it : WeightedItem)
    (hpre : ∀ x ∈ pre, x.weight = 0) (hpost : ∀ x ∈ post, x.weight = 0)
    (hw : 0 < it.weight) :
    pickTotal (pre ++ it :: post) = it.weight := by
  unfold pickTotal
  rw [List.foldl_append, foldl_weight_zeros hpre, List.foldl_cons,
    foldl_weight_zeros hpost, zero_add]
  exact if_neg (ne_of_gt hw)

/-- The walk passes over zero-weight items unchanged while the remainder is
strictly positive. -/
lemma pickGo_skip_zeros {pre : List WeightedItem} (rest : List WeightedItem) (n : ℚ)
    (hpre : ∀ x ∈ pre, x.weight = 0) (hn : 0 < n) :
    pickGo (pre ++ rest) n = pickGo rest n := by
  induction pre with
  | nil => rfl
  | cons x xs ih =>
    have hx : x.weight = 0 := hpre x (List.mem_cons_self x xs)
    rw [List.cons_append]
    simp only [pickGo, hx, sub_zero, if_neg (not_le.mpr hn)]
    exact ih (fun y hy => hpre y (List.mem_cons_of_mem x hy))

/-- `buildDrafts` creates one record per generator item. -/
lemma buildDrafts_length (brand : Brand) (sel : List Selection) (ids : ℕ → String)
    (now : ℕ) (times : List ℕ) :
    ∀ items i0, (buildDrafts brand sel ids now times i0 items).length = items.length := by
  intro items
  induction items with
  | nil => intro i0; rfl
  | cons it rest ih =>
    intro i0
    simp only [buildDrafts, List.length_cons, ih (i0 + 1)]

/-- The `j`-th created draft is `mkDraft` of the `j`-th generator item. -/
lemma buildDrafts_getElem? (brand : Brand) (sel : List Selection) (ids : ℕ → String)
    (now : ℕ) (times : List ℕ) :
    ∀ items i0 j, (buildDrafts brand sel ids now times i0 items)[j]? =
      (items[j]?).map (fun it => mkDraft brand sel ids now times (i0 + j) it) := by
  intro items
  induction items with
  | nil => intro i0 j; simp [buildDrafts]
  | cons it rest ih =>
    intro i0 j
    cases j with
    | zero => simp [buildDrafts]
    | succ j' =>
      simp only [buildDrafts, List.getElem?_cons_succ, ih (i0 + 1) j']
      have : i0 + 1 + j' = i0 + (j' + 1) := by omega
      rw [this]

/-- Every created draft is `mkDraft` of some generator item. -/
lemma buildDrafts_mem (brand : Brand) (sel : List Selection) (ids : ℕ → String)
    (now : ℕ) (times : List ℕ) :
    ∀ items i0 q, q ∈ buildDrafts brand sel ids now times i0 items →
      ∃ i it, it ∈ items ∧ q = mkDraft brand sel ids now times i it := by
  intro items
  induction items with
  | nil => intro i0 q hq; simp [buildDrafts] at hq
  | cons it rest ih =>
    intro i0 q hq
    rcases List.mem_cons.mp hq with rfl | hq'
    · exact ⟨i0, it, List.mem_cons_self it rest, rfl⟩
    · rcases ih (i0 + 1) q hq' with ⟨i, it', hit', rfl⟩
      exact ⟨i, it', List.mem_cons_of_mem it hit', rfl⟩

/-- Characterization of the publish route when every publish call resolves. -/
lemma publishEndpoint_eq_ok {pub : String → Except String PubResult}
    {posts : List Post} {id : String} {now : ℕ} {p : Post} {rs : List PubResult}
    (hf : posts.find? (fun q => q.id = id) = some p)
    (hok : publishPost pub p.platformTargets = .ok rs) :
    publishEndpoint pub posts id now =
      some (posts.map (fun q =>
        if q.id = id then { q with status := "published", publishedAt := some now }
        else q), .ok rs) := by
  unfold publishEndpoint
  rw [hf]
  simp only [hok]

/-- Characterization of the publish route when a publish call throws. -/
lemma publishEndpoint_eq_err {pub : String → Except String PubResult}
    {posts : List Post} {id : String} {now : ℕ} {p : Post} {e : String}
    (hf : posts.find? (fun q => q.id = id) = some p)
    (herr : publishPost pub p.platformTargets = .error e) :
    publishEndpoint pub posts id now =
      some (posts.map (fun q => if q.id = id then { q with status := "failed" } else q),
        .error e) := by
  unfold publishEndpoint
  rw [hf]
  simp only [herr]

/-- Characterization of the approve route on a found post. -/
lemma approvePost_eq {posts : List Post} {id : String} {y : Post}
    (hy : posts.find? (fun r => r.id = id) = some y) :
    approvePost posts id =
      some (posts.map (fun q => if q.id = id then { q with status := "approved" } else q)) := by
  unfold approvePost
  rw [hy]

/-- Characterization of the post PATCH route on a found post. -/
lemma patchPost_eq {posts : List Post} {id : String} {patch : PostPatch} {y : Post}
    (hy : posts.find? (fun r => r.id = id) = some y) :
    patchPost posts id patch =
      some (posts.map (fun q =>
        if q.id = id then
          { q with text := emdashSanitize (patch.text.getD y.text),
                   status := patch.status.getD y.status,
                   scheduledAt := patch.scheduledAt <|> y.scheduledAt,
                   platformTargets := patch.platformTargets.getD y.platformTargets,
                   postMeta := patch.postMeta.getD y.postMeta }
        else q),
        { y with text := emdashSanitize (patch.text.getD y.text),
                 status := patch.status.getD y.status,
                 scheduledAt := patch.scheduledAt <|> y.scheduledAt,
                 platformTargets := patch.platformTargets.getD y.platformTargets,
                 postMeta := patch.postMeta.getD y.postMeta }) := by
  unfold patchPost
  rw [hy]

/-- The sweep leaves any post that is not in status `approved` untouched. -/
lemma cronSweep_nonapproved {pub : String → Except String PubResult}
    {posts : List Post} {now : ℕ} {i : ℕ} {p : Post}
    (hp : posts[i]? = some p) (hs : p.status ≠ "approved") :
    (cronSweep pub posts now)[i]? = some p := by
  unfold cronSweep
  rw [List.getElem?_map, hp, Option.map_some']
  cases hps : p.scheduledAt with
  | none => rfl
  | some t =>
    have : ¬ (p.status = "approved" ∧ t ≤ now) := fun hc => hs hc.1
    simp only [if_neg this]

/-! ## Claims -/

/-- C3: for every cadence with a non-empty weekday set that satisfies the
data model's range invariant (weekdays ⊆ {1..7}, hour ∈ [0,23],
minute ∈ [0,59]), every count and every current instant `now`, every
timestamp returned by `nextScheduleTimes` is strictly after `now`, falls on
a weekday contained in `cadence.weekdays` (Monday = 1 .. Sunday = 7), has
time of day `cadence.hour:cadence.minute:00.000`, and the returned sequence
has length at most `count`. -/
theorem nextScheduleTimes_spec (c : Cadence) (count now : ℕ)
    (_hne : c.weekdays ≠ []) (hwf : cadenceWellFormed c) :
    (nextScheduleTimes c count now).length ≤ count ∧
      ∀ t ∈ nextScheduleTimes c count now,
        now < t ∧ weekdayOfDay (t / msPerDay) ∈ c.weekdays ∧
          t % msPerDay = c.hour * 3600000 + c.minute * 60000 := by
  obtain ⟨-, hh, hm⟩ := hwf
  exact ⟨nextTimesGo_length c now 30 0 count,
    fun t ht => nextTimesGo_mem c now hh hm 30 0 count t ht⟩

/-- Witness for C3: the spec's own example — weekdays {2,5} (Tue, Fri) at
10:00, `now` = Monday (day 4) 09:00. -/
theorem nextScheduleTimes_spec_witness :
    ((⟨[2, 5], 10, 0⟩ : Cadence).weekdays ≠ [] ∧
        cadenceWellFormed ⟨[2, 5], 10, 0⟩) ∧
      ((nextScheduleTimes ⟨[2, 5], 10, 0⟩ 2 378000000).length ≤ 2 ∧
        ∀ t ∈ nextScheduleTimes ⟨[2, 5], 10, 0⟩ 2 378000000,
          378000000 < t ∧
            weekdayOfDay (t / msPerDay) ∈ (⟨[2, 5], 10, 0⟩ : Cadence).weekdays ∧
            t % msPerDay =
              (⟨[2, 5], 10, 0⟩ : Cadence).hour * 3600000 +
                (⟨[2, 5], 10, 0⟩ : Cadence).minute * 60000) :=
  ⟨⟨by decide, by decide⟩,
    nextScheduleTimes_spec ⟨[2, 5], 10, 0⟩ 2 378000000 (by decide) (by decide)⟩

/-- C4 counterexample: in `zeroFirstItems` exactly one item (`"b"`) has
positive weight, the draw 0 lies in `[0, total)`, yet `pickWeighted` returns
the zero-weight first item `"a"`, because `n -= 0` leaves `n = 0` and the
`n <= 0` test fires immediately. -/
theorem pickWeighted_zero_draw_cex :
    (0 : ℚ) ≤ 0 ∧ (0 : ℚ) < pickTotal zeroFirstItems ∧
      pickWeighted zeroFirstItems 0 = some { key := "a", label := "A", weight := 0 } ∧
      ({ key := "a", label := "A", weight := 0 } : WeightedItem) ≠
        { key := "b", label := "B", weight := 1 } := by
  refine ⟨le_refl 0, ?_, ?_, ?_⟩
  · simp only [pickTotal, zeroFirstItems, List.foldl_cons, List.foldl_nil]
    norm_num
  · simp only [pickWeighted, pickGo, zeroFirstItems]
    norm_num
  · intro h
    injection h with h1 h2 h3
    exact absurd h1 (by decide)

/-- C4 (amended): for a non-empty weighted list in which exactly one item
has positive weight and all others weight zero, and for every draw strictly
between 0 and the total, `pick` returns the unique positive-weight item (at
draw exactly 0 the walk instead stops at the first item, which may be a
zero-weight item preceding it). -/
theorem pickWeighted_unique_positive (pre post : List WeightedItem)
    (it : WeightedItem) (draw : ℚ)
    (hpre : ∀ x ∈ pre, x.weight = 0) (hpost : ∀ x ∈ post, x.weight = 0)
    (hw : 0 < it.weight) (h0 : 0 < draw)
    (hlt : draw < pickTotal (pre ++ it :: post)) :
    pickWeighted (pre ++ it :: post) draw = some it := by
  rw [pickTotal_unique_positive pre post it hpre hpost hw] at hlt
  have hstep : pickGo (it :: post) draw = some it := by
    simp only [pickGo]
    rw [if_pos (by linarith)]
  unfold pickWeighted
  rw [pickGo_skip_zeros (it :: post) draw hpre h0, hstep]

/-- Witness for C4 (amended): zero-weight item first, positive item "b" of
weight 2, draw 1 ∈ (0, 2). -/
theorem pickWeighted_unique_positive_witness :
    ((∀ x ∈ [({ key := "a", label := "A", weight := 0 } : WeightedItem)], x.weight = 0) ∧
        (∀ x ∈ ([] : List WeightedItem), x.weight = 0) ∧
        (0 : ℚ) < ({ key := "b", label := "B", weight := 2 } : WeightedItem).weight ∧
        (0 : ℚ) < 1 ∧
        (1 : ℚ) < pickTotal ([{ key := "a", label := "A", weight := 0 }] ++
          { key := "b", label := "B", weight := 2 } :: [])) ∧
      pickWeighted ([{ key := "a", label := "A", weight := 0 }] ++
          { key := "b", label := "B", weight := 2 } :: []) 1 =
        some { key := "b", label := "B", weight := 2 } :=
  ⟨⟨(by intro x hx; rw [List.mem_singleton.mp hx]),
    (by intro x hx; cases hx),
    (by norm_num),
    (by norm_num),
    (by simp only [pickTotal, List.cons_append, List.nil_append, List.foldl_cons,
         List.foldl_nil]; norm_num)⟩,
   pickWeighted_unique_positive [{ key := "a", label := "A", weight := 0 }] []
     { key := "b", label := "B", weight := 2 } 1
     (by intro x hx; rw [List.mem_singleton.mp hx])
     (by intro x hx; cases hx)
     (by norm_num) (by norm_num)
     (by simp only [pickTotal, List.cons_append, List.nil_append, List.foldl_cons,
           List.foldl_nil]; norm_num)⟩

/-- C6: if the content-generator call itself throws, `generatePostsForBrand`
propagates the failure and the store is unchanged — zero drafts persisted. -/
theorem generate_call_failure_no_drafts (store : Store) (brandId : String)
    (e : String) (sel : List Selection) (ids : ℕ → String) (now : ℕ)
    (brand : Brand)
    (hb : store.brands.find? (fun b => b.id = brandId) = some brand) :
    generatePostsForBrand store brandId (.error e) sel ids now =
      (store, .error (.generationFailed e)) := by
  unfold generatePostsForBrand
  rw [hb]

/-- Witness for C6 at a concrete store and failure. -/
theorem generate_call_failure_no_drafts_witness :
    demoStore.brands.find? (fun b => b.id = "b1") = some demoBrand ∧
      generatePostsForBrand demoStore "b1" (.error "boom") [] (fun _ => "u") 0 =
        (demoStore, .error (.generationFailed "boom")) :=
  ⟨rfl, generate_call_failure_no_drafts demoStore "b1" "boom" [] (fun _ => "u") 0
    demoBrand rfl⟩

/-- C7: a generator response that is unparseable, or parses to an object
without a `posts` field, makes `generatePostsForBrand` return an empty
sequence without throwing, and the store is unchanged — no rows inserted. -/
theorem generate_malformed_zero_items (store : Store) (brandId : String)
    (content : GenContent) (sel : List Selection) (ids : ℕ → String) (now : ℕ)
    (brand : Brand)
    (hb : store.brands.find? (fun b => b.id = brandId) = some brand)
    (hc : content = GenContent.malformed ∨ content = GenContent.object none) :
    generatePostsForBrand store brandId (.ok content) sel ids now =
      (store, .ok []) := by
  rcases hc with rfl | rfl
  all_goals
    unfold generatePostsForBrand
    rw [hb]
    simp [parsedItems, buildDrafts]

/-- Witness for C7 at a concrete store and a malformed payload. -/
theorem generate_malformed_zero_items_witness :
    (demoStore.brands.find? (fun b => b.id = "b1") = some demoBrand ∧
        (GenContent.malformed = GenContent.malformed ∨
          GenContent.malformed = GenContent.object none)) ∧
      generatePostsForBrand demoStore "b1" (.ok .malformed) [] (fun _ => "u") 0 =
        (demoStore, .ok []) :=
  ⟨⟨rfl, Or.inl rfl⟩,
    generate_malformed_zero_items demoStore "b1" .malformed [] (fun _ => "u") 0
      demoBrand rfl (Or.inl rfl)⟩

/-- C8: for a parsed generator response with a `posts` array, every persisted
draft's text is the corresponding item's text with every em dash replaced by
a hyphen, so no persisted draft text contains an em dash at creation time;
the inserted rows are exactly the returned records appended to the store. -/
theorem generate_sanitizes_emdash (store : Store) (brandId : String)
    (its : List GenItem) (sel : List Selection) (ids : ℕ → String) (now : ℕ)
    (brand : Brand)
    (hb : store.brands.find? (fun b => b.id = brandId) = some brand) :
    ∃ created,
      generatePostsForBrand store brandId (.ok (.object (some its))) sel ids now =
        ({ store with posts := store.posts ++ created }, .ok created) ∧
      created.length = its.length ∧
      (∀ j : ℕ, created[j]?.map Post.text =
        its[j]?.map (fun it : GenItem => emdashSanitize (it.text.getD ""))) ∧
      ∀ q ∈ created, '—' ∉ q.text.data := by
  refine ⟨buildDrafts brand sel ids now
      (nextScheduleTimes brand.cadence (max 1 its.length) now) 0 its, ?_, ?_, ?_, ?_⟩
  · unfold generatePostsForBrand
    rw [hb]
    rfl
  · exact buildDrafts_length brand sel ids now _ its 0
  · intro j
    rw [buildDrafts_getElem?]
    cases its[j]? with
    | none => rfl
    | some it => rfl
  · intro q hq
    rcases buildDrafts_mem brand sel ids now _ its 0 q hq with ⟨i, it, -, rfl⟩
    exact emdashSanitize_no_emdash (it.text.getD "")

/-- Witness for C8: a one-item response whose text contains an em dash. -/
theorem generate_sanitizes_emdash_witness :
    demoStore.brands.find? (fun b => b.id = "b1") = some demoBrand ∧
      ∃ created,
        generatePostsForBrand demoStore "b1"
            (.ok (.object (some [⟨some "a—b", none, none, none⟩]))) [] (fun _ => "u") 0 =
          ({ demoStore with posts := demoStore.posts ++ created }, .ok created) ∧
        created.length = ([⟨some "a—b", none, none, none⟩] : List GenItem).length ∧
        (∀ j : ℕ, created[j]?.map Post.text =
          ([⟨some "a—b", none, none, none⟩] : List GenItem)[j]?.map
            (fun it : GenItem => emdashSanitize (it.text.getD ""))) ∧
        ∀ q ∈ created, '—' ∉ q.text.data :=
  ⟨rfl, generate_sanitizes_emdash demoStore "b1" [⟨some "a—b", none, none, none⟩] []
    (fun _ => "u") 0 demoBrand rfl⟩

/-- C9: the approve route sets the status of an existing post to `approved`
unconditionally — whatever its current status, including `published` and
`failed` — changing no other field and no other post. -/
theorem approvePost_unconditional (posts : List Post) (id : String) (p : Post)
    (hmem : p ∈ posts) (hid : p.id = id) :
    ∃ posts', approvePost posts id = some posts' ∧
      posts'.length = posts.length ∧
      ∀ i : ℕ, posts'[i]? =
        (posts[i]?).map
          (fun q : Post => if q.id = id then { q with status := "approved" } else q) := by
  rcases exists_find?_of_mem (fun r => r.id = id) hmem (by simp [hid]) with ⟨y, hy⟩
  refine ⟨posts.map (fun q => if q.id = id then { q with status := "approved" } else q),
    approvePost_eq hy, List.length_map posts _, ?_⟩
  intro i
  exact List.getElem?_map _ posts i

/-- Witness for C9: an already published post is moved back to `approved`. -/
theorem approvePost_unconditional_witness :
    (publishedPost ∈ [publishedPost] ∧ publishedPost.id = "p3") ∧
      ∃ posts', approvePost [publishedPost] "p3" = some posts' ∧
        posts'.length = ([publishedPost] : List Post).length ∧
        ∀ i : ℕ, posts'[i]? =
          (([publishedPost] : List Post)[i]?).map
            (fun q : Post => if q.id = "p3" then { q with status := "approved" } else q) :=
  ⟨⟨List.mem_singleton.mpr rfl, rfl⟩,
    approvePost_unconditional [publishedPost] "p3" publishedPost
      (List.mem_singleton.mpr rfl) rfl⟩

/-- C10: a post PATCH that supplies a new text stores it with every em dash
replaced by a hyphen — the same sanitization as at creation time — both in
the updated rows and in the response object. -/
theorem patchPost_sanitizes_text (posts : List Post) (id : String)
    (patch : PostPatch) (p : Post) (t : String)
    (hmem : p ∈ posts) (hid : p.id = id) (ht : patch.text = some t) :
    ∃ res, patchPost posts id patch = some res ∧
      res.2.text = emdashSanitize t ∧ '—' ∉ res.2.text.data ∧
      ∀ q ∈ res.1, q.id = id → q.text = emdashSanitize t ∧ '—' ∉ q.text.data := by
  rcases exists_find?_of_mem (fun r => r.id = id) hmem (by simp [hid]) with ⟨y, hy⟩
  have htext : patch.text.getD y.text = t := by rw [ht]; rfl
  refine ⟨_, patchPost_eq hy, ?_, ?_, ?_⟩
  · show emdashSanitize (patch.text.getD y.text) = emdashSanitize t
    rw [htext]
  · show '—' ∉ (emdashSanitize (patch.text.getD y.text)).data
    exact emdashSanitize_no_emdash _
  · intro q hq hqid
    rcases List.mem_map.mp hq with ⟨r, -, rfl⟩
    by_cases hrid : r.id = id
    · rw [if_pos hrid]
      constructor
      · show emdashSanitize (patch.text.getD y.text) = emdashSanitize t
        rw [htext]
      · exact emdashSanitize_no_emdash _
    · rw [if_pos ?_]
      constructor
      · show emdashSanitize (patch.text.getD y.text) = emdashSanitize t
        rw [htext]
      · exact emdashSanitize_no_emdash _
      · rw [if_neg hrid] at hqid
        exact absurd hqid hrid

/-- Witness for C10: patching `draftPost` with a text containing an em
dash. -/
theorem patchPost_sanitizes_text_witness :
    (draftPost ∈ [draftPost] ∧ draftPost.id = "p2" ∧
        (⟨some "x—y", none, none, none, none⟩ : PostPatch).text = some "x—y") ∧
      ∃ res, patchPost [draftPost] "p2" ⟨some "x—y", none, none, none, none⟩ = some res ∧
        res.2.text = emdashSanitize "x—y" ∧ '—' ∉ res.2.text.data ∧
        ∀ q ∈ res.1, q.id = "p2" →
          q.text = emdashSanitize "x—y" ∧ '—' ∉ q.text.data :=
  ⟨⟨List.mem_singleton.mpr rfl, rfl, rfl⟩,
    patchPost_sanitizes_text [draftPost] "p2" ⟨some "x—y", none, none, none, none⟩
      draftPost "x—y" (List.mem_singleton.mpr rfl) rfl rfl⟩

/-- C1 counterexample: for `approvedPost` (target list `["linkedin"]`) the
publisher call resolves but reports `ok = false`; the route nevertheless
marks the post `published`, not `failed` — the `ok` flags of the results are
never inspected. -/
theorem publish_ignores_ok_cex :
    approvedPost.platformTargets = ["linkedin"] ∧
      failingOkPub "linkedin" = .ok { ok := false, url := "u" } ∧
      (publishEndpoint failingOkPub [approvedPost] "p1" 5).map
          (fun r => (r.1.map Post.status, r.2)) =
        some (["published"], .ok [{ ok := false, url := "u" }]) :=
  ⟨rfl, rfl, rfl⟩

/-- C1 (amended): the manual publish route sets the post to `published`
(with `publishedAt` = now) whenever the loop of publisher calls for its
linkedin targets resolves, regardless of the `ok` values in the reported
results, and sets it to `failed` exactly when one of those calls throws. -/
theorem publishEndpoint_status (pub : String → Except String PubResult)
    (posts : List Post) (id : String) (now : ℕ) (p : Post)
    (hf : posts.find? (fun q => q.id = id) = some p) :
    (∀ rs, publishPost pub p.platformTargets = .ok rs →
      publishEndpoint pub posts id now =
        some (posts.map (fun q : Post =>
          if q.id = id then { q with status := "published", publishedAt := some now }
          else q), .ok rs)) ∧
    (∀ e, publishPost pub p.platformTargets = .error e →
      publishEndpoint pub posts id now =
        some (posts.map (fun q : Post =>
          if q.id = id then { q with status := "failed" } else q), .error e)) :=
  ⟨fun _ hok => publishEndpoint_eq_ok hf hok,
   fun _ herr => publishEndpoint_eq_err hf herr⟩

/-- Witness for C1 (amended), at the ok=false publisher: the post is
published anyway. -/
theorem publishEndpoint_status_witness :
    (([approvedPost] : List Post).find? (fun q => q.id = "p1") = some approvedPost) ∧
      ((∀ rs, publishPost failingOkPub approvedPost.platformTargets = .ok rs →
        publishEndpoint failingOkPub [approvedPost] "p1" 5 =
          some (([approvedPost] : List Post).map (fun q : Post =>
            if q.id = "p1" then { q with status := "published", publishedAt := some 5 }
            else q), .ok rs)) ∧
      (∀ e, publishPost failingOkPub approvedPost.platformTargets = .error e →
        publishEndpoint failingOkPub [approvedPost] "p1" 5 =
          some (([approvedPost] : List Post).map (fun q : Post =>
            if q.id = "p1" then { q with status := "failed" } else q), .error e))) :=
  ⟨rfl, publishEndpoint_status failingOkPub [approvedPost] "p1" 5 approvedPost rfl⟩

/-- C2 counterexample: a post still in status `draft` is transitioned
directly to `published` by the manual publish route (with the code's own
always-ok stub publisher) — no approval ever happened. -/
theorem draft_published_directly_cex :
    draftPost.status = "draft" ∧
      (publishEndpoint stubPub [draftPost] "p2" 7).map (fun r => r.1.map Post.status) =
        some ["published"] :=
  ⟨rfl, rfl⟩

/-- C2 (amended): a draft post is never published by the approve route
(which only ever writes status `approved`) or by the periodic sweep (which
selects only `approved` posts realizing the due-check and leaves a draft
untouched); but the manual publish route performs no status check, so the
same draft post transitions directly to `published` whenever its publish
calls resolve. -/
theorem draft_to_published_only_manual (pub : String → Except String PubResult)
    (posts : List Post) (now : ℕ) (i : ℕ) (p : Post)
    (hp : posts[i]? = some p) (hd : p.status = "draft") :
    (cronSweep pub posts now)[i]? = some p ∧
    (∀ posts2 id posts2', approvePost posts2 id = some posts2' →
      ∀ q ∈ posts2', q.status = "approved" ∨ q ∈ posts2) ∧
    (∀ id rs, posts.find? (fun q => q.id = id) = some p →
      publishPost pub p.platformTargets = .ok rs →
      publishEndpoint pub posts id now =
        some (posts.map (fun q : Post =>
          if q.id = id then { q with status := "published", publishedAt := some now }
          else q), .ok rs)) := by
  refine ⟨cronSweep_nonapproved hp (by rw [hd]; decide), ?_, ?_⟩
  · intro posts2 id posts2' happ q hq
    unfold approvePost at happ
    cases hf : posts2.find? (fun r => r.id = id) with
    | none => rw [hf] at happ; cases happ
    | some y =>
      rw [hf] at happ
      injection happ with h
      subst h
      rcases List.mem_map.mp hq with ⟨r, hr, rfl⟩
      by_cases hrid : r.id = id
      · left; rw [if_pos hrid]
      · right; rw [if_neg hrid]; exact hr
  · intro id rs hf hok
    exact publishEndpoint_eq_ok hf hok

/-- Witness for C2 (amended) at the concrete draft post. -/
theorem draft_to_published_only_manual_witness :
    (([draftPost] : List Post)[0]? = some draftPost ∧ draftPost.status = "draft") ∧
      ((cronSweep stubPub [draftPost] 7)[0]? = some draftPost ∧
      (∀ posts2 id posts2', approvePost posts2 id = some posts2' →
        ∀ q ∈ posts2', q.status = "approved" ∨ q ∈ posts2) ∧
      (∀ id rs, ([draftPost] : List Post).find? (fun q => q.id = id) = some draftPost →
        publishPost stubPub draftPost.platformTargets = .ok rs →
        publishEndpoint stubPub [draftPost] id 7 =
          some (([draftPost] : List Post).map (fun q : Post =>
            if q.id = id then { q with status := "published", publishedAt := some 7 }
            else q), .ok rs))) :=
  ⟨⟨rfl, rfl⟩, draft_to_published_only_manual stubPub [draftPost] 7 0 draftPost rfl rfl⟩

/-- C5 counterexample, in two parts.  Create: a request whose cadence fields
pass the type checks (`Array.isArray`, `Number.isInteger`) but are out of
range — weekday 9, hour 99 — is stored exactly as given, violating the
invariant; no range validation or correction to defaults happens.  Update: a
request whose cadence carries a present but non-array weekdays value (the
JSON number 5) is stored exactly as given — there is no type check on this
path, so it is neither corrected to a default nor to the current value — and
the resulting row violates the invariant. -/
theorem brand_cadence_invariant_cex :
    (((brandCreate ⟨[], []⟩ outOfRangeCreateReq).1.brands.map
        (fun b : Brand => b.cadence)) = [⟨[9], 99, 0⟩] ∧
      ¬ cadenceWellFormed ⟨[9], 99, 0⟩) ∧
    (brandPatch [demoRow] "b1" malformedWeekdaysPatch =
        some ([{ demoRow with cadence_weekdays := Weekdays.other "5" }],
          { demoRow with cadence_weekdays := Weekdays.other "5" }) ∧
      ¬ BrandRow.wellFormed { demoRow with cadence_weekdays := Weekdays.other "5" }) := by
  refine ⟨⟨rfl, by decide⟩, rfl, ?_⟩
  intro h
  exact h.1

/-- C5 (amended): on create, each cadence field is type-checked
(`Array.isArray`, `Number.isInteger`) and a missing or type-malformed field
is replaced by the default (`[2,5]` / `10` / `0`), while well-typed values
are stored as given with no range check.  On update, only hour and minute
are type-checked (falling back to the current values); a present weekday
value is stored exactly as supplied with no check at all — even a non-array.
Consequently the invariant (weekdays ⊆ {1..7}, hour ∈ [0,23],
minute ∈ [0,59]) is preserved across a create or an update exactly when
every well-typed cadence field supplied is itself within range and every
weekday value supplied on update is an array of in-range weekdays. -/
theorem brandCadence_invariant (store : Store) (creq : BrandCreateReq)
    (rows : List BrandRow) (id : String) (preq : BrandPatchReq)
    (hcw : ∀ l, creq.cadence.weekdays = ReqField.val l → ∀ d ∈ l, 1 ≤ d ∧ d ≤ 7)
    (hch : ∀ n, creq.cadence.hour = ReqField.val n → n ≤ 23)
    (hcm : ∀ n, creq.cadence.minute = ReqField.val n → n ≤ 59)
    (hpw : ∀ cp v, preq.cadence = some cp → cp.weekdays = some v →
      ∃ l, v = Weekdays.arr l ∧ ∀ d ∈ l, 1 ≤ d ∧ d ≤ 7)
    (hph : ∀ cp n, preq.cadence = some cp → cp.hour = ReqField.val n → n ≤ 23)
    (hpm : ∀ cp n, preq.cadence = some cp → cp.minute = ReqField.val n → n ≤ 59)
    (hstore : ∀ b ∈ store.brands, cadenceWellFormed b.cadence)
    (hrows : ∀ r ∈ rows, r.wellFormed) :
    (∀ b ∈ (brandCreate store creq).1.brands, cadenceWellFormed b.cadence) ∧
    ∀ res, brandPatch rows id preq = some res →
      ∀ r ∈ res.1, r.wellFormed := by
  constructor
  · intro b hb
    unfold brandCreate at hb
    by_cases h1 : creq.id = "" ∨ creq.name = ""
    · rw [if_pos h1] at hb
      exact hstore b hb
    · rw [if_neg h1] at hb
      by_cases h2 : (store.brands.any (fun x => x.id = creq.id)) = true
      · rw [if_pos h2] at hb
        exact hstore b hb
      · rw [if_neg h2] at hb
        dsimp only at hb
        rcases List.mem_append.mp hb with h | h
        · exact hstore b h
        · rw [List.mem_singleton.mp h]
          refine ⟨?_, ?_, ?_⟩
          · cases hw : creq.cadence.weekdays with
            | missing => dsimp only; decide
            | malformed => dsimp only; decide
            | val l => dsimp only; exact hcw l hw
          · cases hh : creq.cadence.hour with
            | missing => dsimp only; decide
            | malformed => dsimp only; decide
            | val n => dsimp only; exact hch n hh
          · cases hm : creq.cadence.minute with
            | missing => dsimp only; decide
            | malformed => dsimp only; decide
            | val n => dsimp only; exact hcm n hm
  · intro res hres r hr
    unfold brandPatch at hres
    cases hf : rows.find? (fun x => x.id = id) with
    | none => rw [hf] at hres; cases hres
    | some b0 =>
      rw [hf] at hres
      injection hres with h
      subst h
      dsimp only at hr
      have hb0 : b0.wellFormed := hrows b0 (List.mem_of_find?_eq_some hf)
      rcases List.mem_map.mp hr with ⟨x, hx, rfl⟩
      by_cases hxid : x.id = id
      · rw [if_pos hxid]
        refine ⟨?_, ?_, ?_⟩
        · cases hc : preq.cadence with
          | none => dsimp only; exact hb0.1
          | some cp =>
            cases hw : cp.weekdays with
            | none => simp only [hw]; exact hb0.1
            | some v =>
              simp only [hw]
              rcases hpw cp v hc hw with ⟨l, rfl, hl⟩
              exact hl
        · cases hc : preq.cadence with
          | none => dsimp only; exact hb0.2.1
          | some cp =>
            cases hh : cp.hour with
            | missing => simp only [hh]; exact hb0.2.1
            | malformed => simp only [hh]; exact hb0.2.1
            | val n => simp only [hh]; exact hph cp n hc hh
        · cases hc : preq.cadence with
          | none => dsimp only; exact hb0.2.2
          | some cp =>
            cases hm : cp.minute with
            | missing => simp only [hm]; exact hb0.2.2
            | malformed => simp only [hm]; exact hb0.2.2
            | val n => simp only [hm]; exact hpm cp n hc hm
      · rw [if_neg hxid]
        exact hrows x hx

/-- Witness for C5 (amended): an in-range create request over a store whose
only brand has the default cadence, and a patch request carrying an in-range
weekday array over the corresponding row table. -/
theorem brandCadence_invariant_witness :
    ((∀ l, goodCreateReq.cadence.weekdays = ReqField.val l → ∀ d ∈ l, 1 ≤ d ∧ d ≤ 7) ∧
        (∀ n, goodCreateReq.cadence.hour = ReqField.val n → n ≤ 23) ∧
        (∀ n, goodCreateReq.cadence.minute = ReqField.val n → n ≤ 59) ∧
        (∀ cp v, goodPatchReq.cadence = some cp → cp.weekdays = some v →
          ∃ l, v = Weekdays.arr l ∧ ∀ d ∈ l, 1 ≤ d ∧ d ≤ 7) ∧
        (∀ cp n, goodPatchReq.cadence = some cp → cp.hour = ReqField.val n → n ≤ 23) ∧
        (∀ cp n, goodPatchReq.cadence = some cp → cp.minute = ReqField.val n → n ≤ 59) ∧
        (∀ b ∈ demoStore.brands, cadenceWellFormed b.cadence) ∧
        (∀ r ∈ [demoRow], r.wellFormed)) ∧
      ((∀ b ∈ (brandCreate demoStore goodCreateReq).1.brands, cadenceWellFormed b.cadence) ∧
        ∀ res, brandPatch [demoRow] "b1" goodPatchReq = some res →
          ∀ r ∈ res.1, r.wellFormed) :=
  ⟨⟨(by intro l hl; injection hl with h; subst h; decide),
    (by intro n hn; injection hn with h; subst h; decide),
    (by intro n hn; injection hn with h; subst h; decide),
    (by intro cp v hcp hv; injection hcp with h; subst h;
        injection hv with h2; subst h2; exact ⟨[3], rfl, by decide⟩),
    (by intro cp n hcp hn; injection hcp with h; subst h;
        injection hn with h2; subst h2; decide),
    (by intro cp n hcp hn; injection hcp with h; subst h; injection hn),
    (by intro b hb; rw [List.mem_singleton.mp hb]; decide),
    (by intro r hr; rw [List.mem_singleton.mp hr]
        exact ⟨(show ∀ d ∈ [2, 5], 1 ≤ d ∧ d ≤ 7 by decide), by decide, by decide⟩)⟩,
   brandCadence_invariant demoStore goodCreateReq [demoRow] "b1" goodPatchReq
     (by intro l hl; injection hl with h; subst h; decide)
     (by intro n hn; injection hn with h; subst h; decide)
     (by intro n hn; injection hn with h; subst h; decide)
     (by intro cp v hcp hv; injection hcp with h; subst h;
         injection hv with h2; subst h2; exact ⟨[3], rfl, by decide⟩)
     (by intro cp n hcp hn; injection hcp with h; subst h;
         injection hn with h2; subst h2; decide)
     (by intro cp n hcp hn; injection hcp with h; subst h; injection hn)
     (by intro b hb; rw [List.mem_singleton.mp hb]; decide)
     (by intro r hr; rw [List.mem_singleton.mp hr]
         exact ⟨(show ∀ d ∈ [2, 5], 1 ≤ d ∧ d ≤ 7 by decide), by decide, by decide⟩)⟩

end SSSP
